import Mathlib

/-!
Verification of the goproxy censorship-evading dialer and relay codec.

The development shallowly embeds two source files:
* `httpproxy/filters/gae/gaeserver.go` — the relay codec
  (`encodeRequest`, `decodeResponse`);
* the `dialer` package file (`MultiDialer`) — DNS/alias lookup
  (`LookupHost`, `LookupHost2`, `LookupAlias`), the address picker
  (`pickupAddrs`, `shuffle`) and the health-cache updates performed by the
  racer goroutines of `dialMulti` / `dialMultiTLS`.

Modelling conventions:
* Go strings and byte slices are `List Char` / `List Nat`; all string
  operations are re-implemented by structural recursion so that every
  definition evaluates inside the kernel.
* `compress/flate` is abstracted as a pair of functions
  `defl / infl : List Nat → List Nat` with the round-trip property
  `infl (defl s) = s`; theorems that speak about inflated content
  universally quantify over such pairs.
* Clocks are `Nat` timestamps; `time.Duration` values are `Int`
  nanoseconds exactly as in Go (`time.Second = 10^9`).
-/

namespace Goproxy

/-- Go string modelled as its list of characters. -/
abbrev Str := List Char

/-- Characters of a Lean string literal (used to write Go string literals). -/
def chars (s : String) : Str := s.data

/-- Bytes of an (ASCII) string, as Go's `[]byte(s)`. -/
def strBytes (s : Str) : List Nat := s.map Char.toNat

/-- The two-character sequence `"\r\n"`. -/
def crlf : Str := chars "\r\n"

/-- Decimal digit character, as Go's `strconv` produces. -/
def digitChar (n : Nat) : Char := Char.ofNat (48 + n)

/-- Fuel-driven decimal printer (structural recursion so it kernel-evaluates). -/
def natToStrAux : Nat → Nat → Str
  | 0, _ => []
  | f + 1, n => if n < 10 then [digitChar n] else natToStrAux f (n / 10) ++ [digitChar (n % 10)]

/-- Decimal representation of a `Nat`, as Go's `fmt.Fprintf("%d", n)`. -/
def natToStr (n : Nat) : Str := natToStrAux (n + 1) n

/-- Go `binary.BigEndian.PutUint16(b0, uint16(n))`: the `uint16` conversion
truncates modulo 2^16 and the two bytes are big-endian. -/
def u16be (n : Nat) : List Nat := [n % 65536 / 256, n % 256]

/-- Value encoded by a 2-byte big-endian prefix, as `binary.Read` decodes it. -/
def u16val (b : List Nat) : Nat := 256 * b.headD 0 + (b.drop 1).headD 0

/-- Go `http.Header`: header keys each carrying their list of values. -/
abbrev Header := List (Str × List Str)

/-- The `net/textproto` sanitisation done by `Header.WriteSubset`:
`headerNewlineToSpace` replaces `\r` and `\n` by a space. -/
def replNl (c : Char) : Char := if c = '\r' ∨ c = '\n' then ' ' else c

/-- Go `textproto.TrimString` trims leading/trailing space and tab. -/
def isSpTab (c : Char) : Bool := c = ' ' ∨ c = '\t'

/-- Trim leading and trailing space/tab (as `textproto.TrimString`). -/
def trimOWS (l : Str) : Str := ((l.dropWhile isSpTab).reverse.dropWhile isSpTab).reverse

/-- Value sanitisation performed by `Header.WriteSubset` on each value. -/
def sanitizeHeaderValue (v : Str) : Str := trimOWS (v.map replNl)

/-- Go byte-wise string comparison `a < b` (keys are ASCII so character
codes coincide with bytes). -/
def strLt : Str → Str → Bool
  | [], [] => false
  | [], _ :: _ => true
  | _ :: _, [] => false
  | a :: as, b :: bs =>
    if a.toNat < b.toNat then true
    else if b.toNat < a.toNat then false
    else strLt as bs

/-- Insert one header into a key-sorted header list. -/
def insertHeaderSorted (x : Str × List Str) : Header → Header
  | [] => [x]
  | y :: ys => if strLt x.1 y.1 then x :: y :: ys else y :: insertHeaderSorted x ys

/-- Sort headers by key, as `Header.WriteSubset` does before writing. -/
def sortHeaders : Header → Header
  | [] => []
  | x :: xs => insertHeaderSorted x (sortHeaders xs)

/-- Modelled from the spec: the fixed denylist `helpers.ReqWriteExcludeHeader`
(the `helpers` package is not part of the provided sources); the spec lists
Connection, Keep-Alive, Proxy-Authenticate, Proxy-Authorization, TE,
Trailers, Transfer-Encoding, Upgrade, Accept-Encoding, Content-Length, Host. -/
def reqWriteExcludeHeader : List Str :=
  [chars "Connection", chars "Keep-Alive", chars "Proxy-Authenticate",
   chars "Proxy-Authorization", chars "TE", chars "Trailers",
   chars "Transfer-Encoding", chars "Upgrade", chars "Accept-Encoding",
   chars "Content-Length", chars "Host"]

/-- Model of `req.Header.WriteSubset(w, helpers.ReqWriteExcludeHeader)`: drop the
excluded keys, sort the remaining keys, and write one `"Key: value\r\n"`
line per value (values sanitised as net/http does). -/
def writeSubset (h : Header) : Str :=
  let kept := h.filter (fun kv => !(reqWriteExcludeHeader.contains kv.1))
  ((sortHeaders kept).map
    (fun kv => (kv.2.map (fun v => kv.1 ++ chars ": " ++ sanitizeHeaderValue v ++ crlf)).flatten)).flatten

/-- The inner request handed to `Server.encodeRequest`: method, the string
form of its absolute URL, headers, `ContentLength` (`int64`, may be `-1`
for unknown length) and the raw body bytes behind `req.Body`. -/
structure GaeRequest where
  method : Str
  urlString : Str
  header : Header
  contentLength : Int
  body : List Nat

/-- The `gae.Server` fields used by the codec: relay URL scheme, password
and deadline (`time.Duration` nanoseconds). -/
structure GaeServer where
  urlScheme : Str
  password : Str
  deadline : Int

/-- The header block written into the deflate stream by `encodeRequest`:
request line, filtered headers, password line, and the deadline line iff
`f.Deadline > 0` (printed in seconds: `f.Deadline/time.Second`). -/
def encodeHead (req : GaeRequest) (f : GaeServer) : Str :=
  req.method ++ chars " " ++ req.urlString ++ chars " HTTP/1.1" ++ crlf
    ++ writeSubset req.header
    ++ chars "X-Urlfetch-Password: " ++ f.password ++ crlf
    ++ (if f.deadline > 0
        then chars "X-Urlfetch-Deadline: " ++ natToStr (f.deadline.toNat / 1000000000) ++ crlf
        else [])

/-- The outer POST request produced by `encodeRequest`. -/
structure OuterRequest where
  method : Str
  urlScheme : Str
  header : Header
  contentLength : Int
  body : List Nat
deriving DecidableEq

/-- Model of `Server.encodeRequest`, parametrised by the deflate compressor `defl`.
The source builds `b` = deflate(head), writes the 2-byte prefix
`uint16(b.Len())`, and concatenates the inner body iff
`req.ContentLength > 0`.  There is no size check on `b.Len()`. -/
def encodeRequest (defl : List Nat → List Nat) (req : GaeRequest) (f : GaeServer) :
    OuterRequest :=
  let c := defl (strBytes (encodeHead req f))
  let b0 := u16be c.length
  let hdr : Header :=
    if f.urlScheme = chars "https" then [(chars "User-Agent", [chars "a"])] else []
  if req.contentLength > 0 then
    { method := chars "POST", urlScheme := f.urlScheme, header := hdr,
      contentLength := (2 + c.length : Int) + req.contentLength,
      body := b0 ++ c ++ req.body }
  else
    { method := chars "POST", urlScheme := f.urlScheme, header := hdr,
      contentLength := (2 + c.length : Int),
      body := b0 ++ c }

/-! ### Response decoding (`Server.decodeResponse`) -/

/-- Go `strings.Split(s, ", ")`: split on every occurrence of the two-character
separator, scanning left to right. -/
def splitCommaSpace : Str → List Str
  | [] => [[]]
  | ',' :: ' ' :: rest => [] :: splitCommaSpace rest
  | c :: rest =>
    match splitCommaSpace rest with
    | [] => [[c]]
    | p :: ps => (c :: p) :: ps

/-- Go `strings.Contains(strings.Split(c, ";")[0], "=")`: the part before the
first `;` contains an `=`, i.e. the part starts a new cookie. -/
def startsNewCookie (c : Str) : Bool := (c.takeWhile (fun x => x ≠ ';')).contains '='

/-- The loop body of the Set-Cookie repair in `decodeResponse`: `cur` is the
last element of the accumulated `parts1`; a part that does not start a new
cookie is rejoined to it with `", "`. -/
def mergeCookieParts (cur : Str) : List Str → List Str
  | [] => [cur]
  | c :: cs =>
    if startsNewCookie c then cur :: mergeCookieParts c cs
    else mergeCookieParts (cur ++ chars ", " ++ c) cs

/-- The full Set-Cookie rewrite of one header value: split on `", "`, keep
the first part unconditionally, then walk the remaining parts. -/
def splitCookieValue (s : Str) : List Str :=
  match splitCommaSpace s with
  | [] => []
  | p :: rest => mergeCookieParts p rest

/-- Exact-key header lookup, as Go's map index `resp1.Header[key]`. -/
def headerGet (h : Header) (k : Str) : Option (List Str) :=
  match h.find? (fun kv => kv.1 = k) with
  | some kv => some kv.2
  | none => none

/-- Go `Header.Del` followed by `Header.Add` for each new value: the entry for
the key ends up carrying exactly the new values (entry order in a Go map is
immaterial; the association list keeps the entry in place). -/
def headerSetValues (h : Header) (k : Str) (vs : List Str) : Header :=
  h.map (fun kv => if kv.1 = k then (kv.1, vs) else kv)

/-- The Set-Cookie block of `decodeResponse`: only when the headers hold
exactly one `Set-Cookie` value is it split, and the split replaces the
value only when it produced more than one cookie. -/
def fixSetCookie (h : Header) : Header :=
  match headerGet h (chars "Set-Cookie") with
  | some [c] =>
    let parts1 := splitCookieValue c
    if parts1.length > 1 then headerSetValues h (chars "Set-Cookie") parts1 else h
  | _ => h

/-- Split a character stream at every `"\r\n"`. -/
def splitCRLF : Str → List Str
  | [] => [[]]
  | '\r' :: '\n' :: rest => [] :: splitCRLF rest
  | c :: rest =>
    match splitCRLF rest with
    | [] => [[c]]
    | p :: ps => (c :: p) :: ps

/-- Split an HTTP message at the first `"\r\n\r\n"` into head and body;
`none` when the blank line never comes (ReadResponse fails with EOF). -/
def splitHeadBody : Str → Option (Str × Str)
  | '\r' :: '\n' :: '\r' :: '\n' :: rest => some ([], rest)
  | c :: rest => (splitHeadBody rest).map (fun p => (c :: p.1, p.2))
  | [] => none

/-- Boolean prefix test on character lists. -/
def beginsWith : Str → Str → Bool
  | [], _ => true
  | _ :: _, [] => false
  | p :: ps, c :: cs => if p = c then beginsWith ps cs else false

/-- Digits-only `strconv.Atoi` (ReadResponse requires a 3-digit status and
`fixLength` a digit string for Content-Length). -/
def parseNatDigits (l : Str) : Option Nat :=
  if l.length ≠ 0 ∧ l.all Char.isDigit then
    some (l.foldl (fun n c => 10 * n + (c.toNat - 48)) 0)
  else none

/-- The status-line parse of `http.ReadResponse`: proto up to the first
space (must be `HTTP/…`), status code up to the next space, exactly three
digits. -/
def parseStatusLine (line : Str) : Option Nat :=
  let proto := line.takeWhile (fun c => c ≠ ' ')
  if proto.length = line.length then none
  else
    let status := (line.drop (proto.length + 1)).dropWhile (fun c => c = ' ')
    let code := status.takeWhile (fun c => c ≠ ' ')
    if beginsWith (chars "HTTP/") proto = false then none
    else if code.length ≠ 3 then none
    else parseNatDigits code

/-- Go `textproto.CanonicalMIMEHeaderKey` on well-formed keys: first letter and
every letter after a `-` uppercase, the rest lowercase. -/
def canonKeyAux : Bool → Str → Str
  | _, [] => []
  | up, c :: cs => (if up then c.toUpper else c.toLower) :: canonKeyAux (c = '-') cs

/-- Canonical MIME header key. -/
def canonKey (l : Str) : Str := canonKeyAux true l

/-- One MIME header line `Key: value` (key before the first colon, value
with leading space/tab skipped, key canonicalised). -/
def parseHeaderLine (l : Str) : Option (Str × Str) :=
  let k := l.takeWhile (fun c => c ≠ ':')
  if k.length = l.length then none
  else some (canonKey k, (l.drop (k.length + 1)).dropWhile isSpTab)

/-- The `textproto` header collection: values accumulate per key in order. -/
def headerAdd (h : Header) (k : Str) (v : Str) : Header :=
  match h with
  | [] => [(k, [v])]
  | kv :: rest => if kv.1 = k then (kv.1, kv.2 ++ [v]) :: rest else kv :: headerAdd rest k v

/-- Parse all header lines, failing on a line without a colon. -/
def parseHeaderLines (acc : Header) : List Str → Option Header
  | [] => some acc
  | l :: ls =>
    match parseHeaderLine l with
    | none => none
    | some (k, v) => parseHeaderLines (headerAdd acc k v) ls

/-- Model of `http.ReadResponse` over the inflated header block: status
line, headers, then the body — the remainder of the block, truncated to
Content-Length when that header is present (a non-numeric or repeated
Content-Length fails the parse, as `fixLength` does).  Chunked transfer
encoding and the no-body statuses are not used by the relay and are not
modelled. -/
def readResponseHead (s : Str) : Option (Nat × Header × Str) :=
  match splitHeadBody s with
  | none => none
  | some (head, rest) =>
    match splitCRLF head with
    | [] => none
    | statusLine :: hdrLines =>
      match parseStatusLine statusLine, parseHeaderLines [] hdrLines with
      | some code, some hdrs =>
        match headerGet hdrs (chars "Content-Length") with
        | some [n] =>
          match parseNatDigits n with
          | some len => some (code, hdrs, rest.take len)
          | none => none
        | some _ => none
        | none => some (code, hdrs, rest)
      | _, _ => none

/-- An HTTP response as the codec sees it: status, headers, body bytes
(`none` models a nil `resp.Body`). -/
structure HttpResponse where
  status : Nat
  header : Header
  body : Option (List Nat)
deriving DecidableEq

/-- The error-body composition switch at the end of `decodeResponse`:
for a decoded status ≥ 400, a nil outer body leaves the decoded body, a
nil decoded body takes the outer remainder, and otherwise the fully-read
decoded body is prepended to the outer remainder iff it is non-empty; for
status < 400 the outer remainder is always used. -/
def composeBody (innerStatus : Nat) (innerBody : Option (List Nat))
    (outerRem : Option (List Nat)) : Option (List Nat) :=
  if innerStatus ≥ 400 then
    match outerRem, innerBody with
    | none, _ => innerBody
    | some _, none => outerRem
    | some rem, some b => if b.length > 0 then some (b ++ rem) else some rem
  else outerRem

/-- Read the 2-byte big-endian length and split off the compressed header
block; `none` models the `binary.Read` / `io.ReadFull` failures. -/
def decodeFrame (bs : List Nat) : Option (List Nat × List Nat) :=
  match bs with
  | b0 :: b1 :: rest =>
    let len := 256 * b0 + b1
    if rest.length < len then none else some (rest.take len, rest.drop len)
  | _ => none

/-- Characters of a byte list (inverse of `strBytes` on ASCII data). -/
def bytesToStr (l : List Nat) : Str := l.map Char.ofNat

/-- Model of `Server.decodeResponse`, parametrised by the inflater `infl`: a non-200
outer response passes through unchanged; otherwise the frame is split, the
header block is inflated and parsed, the Set-Cookie value is repaired, and
the final body is composed from the decoded body and the remaining outer
bytes. -/
def decodeResponse (infl : List Nat → List Nat) (resp : HttpResponse) :
    Option HttpResponse :=
  if resp.status ≠ 200 then some resp
  else
    match resp.body with
    | none => none
    | some bs =>
      match decodeFrame bs with
      | none => none
      | some (hdrBuf, rem) =>
        match readResponseHead (bytesToStr (infl hdrBuf)) with
        | none => none
        | some (code, hdrs, innerBody) =>
          some { status := code, header := fixSetCookie hdrs,
                 body := composeBody code (some (strBytes innerBody)) (some rem) }

/-! ### Health / DNS caches (`lrucache.Cache`) -/

/-- Model of `lrucache.Cache`: a TTL map from string key to value.  Each entry
carries its expiry timestamp (`0` models the zero `time.Time`, which never
expires).  Capacity/LRU bookkeeping does not affect the properties proved
here and is not modelled. -/
def Cache (V : Type) : Type := Str → Option (V × Nat)

/-- The empty cache. -/
def Cache.empty {V : Type} : Cache V := fun _ => none

/-- Operation `Cache.Set(key, value, expiry)`. -/
def Cache.set {V : Type} (c : Cache V) (k : Str) (v : V) (e : Nat) : Cache V :=
  fun q => if q = k then some (v, e) else c q

/-- Operation `Cache.Del(key)`. -/
def Cache.del {V : Type} (c : Cache V) (k : Str) : Cache V :=
  fun q => if q = k then none else c q

/-- Operation `Cache.GetQuiet(key)` at time `now`: a stored entry is live while its
expiry has not passed (zero expiry never passes).  `Cache.Get` differs only
in LRU recency, which is not modelled. -/
def Cache.getQuiet {V : Type} (c : Cache V) (k : Str) (now : Nat) : Option V :=
  match c k with
  | some (v, e) => if e = 0 ∨ now < e then some v else none
  | none => none

/-- The four health caches of a `MultiDialer`. -/
structure HealthCaches where
  TCPConnDuration : Cache Nat
  TCPConnError : Cache Str
  TLSConnDuration : Cache Nat
  TLSConnError : Cache Str

/-- The cache update performed by one racer goroutine of `dialMulti`
(`dialErr = none` means the TCP connect succeeded, taking from `start` to
`finish`).  On success the duration is stored under `TCPConnDuration`; on
failure the duration record is deleted and — exactly as the source does —
the connect error is written into `TLSConnError`. -/
def dialMultiAttempt (d : HealthCaches) (connExpiry : Nat) (addr : Str)
    (dialErr : Option Str) (start finish : Nat) : HealthCaches :=
  match dialErr with
  | none =>
    { d with TCPConnDuration := d.TCPConnDuration.set addr (finish - start) (finish + connExpiry) }
  | some e =>
    { d with TCPConnDuration := d.TCPConnDuration.del addr,
             TLSConnError := d.TLSConnError.set addr e (finish + connExpiry) }

/-- The cache update performed by one racer goroutine of `dialMultiTLS`:
a TCP connect failure deletes the TLS duration record and stores the error;
on connect success only the handshake is timed (`start` to `finish`), the
handshake duration being stored on success and the handshake error on
failure (again deleting the duration record).  For a connect failure
`finish` is the time of the failure and `start` is unused. -/
def dialMultiTLSAttempt (d : HealthCaches) (connExpiry : Nat) (addr : Str)
    (dialErr : Option Str) (hsErr : Option Str) (start finish : Nat) : HealthCaches :=
  match dialErr with
  | some e =>
    { d with TLSConnDuration := d.TLSConnDuration.del addr,
             TLSConnError := d.TLSConnError.set addr e (finish + connExpiry) }
  | none =>
    match hsErr with
    | none =>
      { d with TLSConnDuration := d.TLSConnDuration.set addr (finish - start) (finish + connExpiry) }
    | some e =>
      { d with TLSConnDuration := d.TLSConnDuration.del addr,
               TLSConnError := d.TLSConnError.set addr e (finish + connExpiry) }

/-! ### The address picker (`pickupAddrs`, `shuffle`) -/

/-- The `racer` value sorted by `pickupAddrs`: an address with its cached
connect duration. -/
structure Racer where
  addr : Str
  duration : Nat
deriving DecidableEq

/-- Swap two positions of a list (identity when either is out of range). -/
def swapAt {α : Type} (l : List α) (i j : Nat) : List α :=
  match l[i]?, l[j]? with
  | some a, some b => (l.set i b).set j a
  | _, _ => l

/-- The Fisher–Yates loop of `shuffle`, running indices `i, i-1, …, 0`;
`rnd i` is the random draw of the iteration at index `i`, reduced modulo
`i+1` to reflect `rand.Intn(i+1)`. -/
def shuffleFrom {α : Type} (rnd : Nat → Nat) (l : List α) : Nat → List α
  | 0 => swapAt l 0 (rnd 0 % 1)
  | i + 1 => shuffleFrom rnd (swapAt l (i + 1) (rnd (i + 1) % (i + 2))) i

/-- Go `shuffle`: Fisher–Yates over the whole list (no iterations on an empty
list). -/
def shuffle {α : Type} (rnd : Nat → Nat) (l : List α) : List α :=
  match l with
  | [] => []
  | _ :: _ => shuffleFrom rnd l (l.length - 1)

/-- Model of `pickupAddrs(addrs, n, connDuration, connError)`: when more addresses
than the budget are offered, partition them by health state, sort the good
ones by duration and cap them at `n/2`, shuffle the unknown ones and top up
to `n`.  Addresses found in the duration cache are good; of the rest, those
found in the error cache are bad and never enter the result. -/
def pickupAddrs (addrs : List Str) (n : Nat) (connDuration : Cache Nat)
    (connError : Cache Str) (now : Nat) (rnd : Nat → Nat) : List Str :=
  if addrs.length ≤ n then addrs
  else
    let goodAddrs := addrs.filterMap
      (fun a => (connDuration.getQuiet a now).map (fun d => Racer.mk a d))
    let unknownAddrs := addrs.filter
      (fun a => (connDuration.getQuiet a now).isNone && (connError.getQuiet a now).isNone)
    let good1 := ((goodAddrs.insertionSort (fun a b => a.duration ≤ b.duration)).take (n / 2)).map Racer.addr
    let unknown1 := (shuffle rnd unknownAddrs).take (n - good1.length)
    good1 ++ unknown1

/-! ### Resolution (`LookupHost`, `LookupHost2`, `LookupAlias`) -/

/-- A DNS answer record, as inspected by `LookupHost2`. -/
inductive DnsRec
  | A (ip : Str)
  | AAAA (ip : Str)
  | other
deriving DecidableEq

/-- The `MultiDialer` configuration and external oracles used by the
resolution functions: `sysDNS` stands for `net.LookupHost` (`none` = error)
and `udpDNS name server` for `dns.Exchange` of the query for `name` sent to
`server` (`none` = transport error). -/
structure DialerCfg where
  IPv6Only : Bool
  HostMap : List (Str × List Str)
  blacklist : Str → Bool
  DNSServers : List Str
  sysDNS : Str → Option (List Str)
  udpDNS : Str → Str → Option (List DnsRec)
  DNSCacheExpiry : Nat

/-- Model of `MultiDialer.LookupHost`: system resolution, then drop blacklisted
addresses and keep colon-containing (IPv6) addresses only in IPv6-only
mode; addresses without a colon are always kept. -/
def LookupHost (d : DialerCfg) (name : Str) : Option (List Str) :=
  match d.sysDNS name with
  | none => none
  | some hs => some (hs.filter (fun h =>
      if d.blacklist h then false
      else if h.contains ':' then d.IPv6Only
      else true))

/-- Model of `MultiDialer.LookupHost2`: direct UDP resolution; an empty answer
section is the `"no Answer"` error; in IPv6-only mode only non-blacklisted
AAAA records are kept, otherwise only non-blacklisted A records. -/
def LookupHost2 (d : DialerCfg) (name : Str) (server : Str) : Option (List Str) :=
  match d.udpDNS name server with
  | none => none
  | some ans =>
    if ans.length < 1 then none
    else some (ans.filterMap (fun rr =>
      match rr with
      | DnsRec.AAAA ip => if d.IPv6Only ∧ ¬ d.blacklist ip then some ip else none
      | DnsRec.A ip => if ¬ d.IPv6Only ∧ ¬ d.blacklist ip then some ip else none
      | DnsRec.other => none))

/-- Split a character list at every `.`. -/
def splitDot : Str → List Str
  | [] => [[]]
  | '.' :: rest => [] :: splitDot rest
  | c :: rest =>
    match splitDot rest with
    | [] => [[c]]
    | p :: ps => (c :: p) :: ps

/-- Dotted-quad IPv4 literal. -/
def isIPv4Lit (s : Str) : Bool :=
  let parts := splitDot s
  parts.length = 4 ∧ parts.all (fun p =>
    p.length ≠ 0 ∧ p.all Char.isDigit ∧ p.foldl (fun n c => 10 * n + (c.toNat - 48)) 0 ≤ 255)

/-- IPv6 literal (colon-separated hex groups, possibly with an embedded
dotted quad). -/
def isIPv6Lit (s : Str) : Bool :=
  s.contains ':' ∧ s.length ≠ 0 ∧
    s.all (fun c => c.isDigit ∨ ('a' ≤ c ∧ c ≤ 'f') ∨ ('A' ≤ c ∧ c ≤ 'F') ∨ c = ':' ∨ c = '.')

/-- Test `net.ParseIP(name) != nil`, adequate for well-formed member
specifiers: either a dotted-quad IPv4 literal or an IPv6 literal. -/
def isIPLiteral (s : Str) : Bool := isIPv4Lit s ∨ isIPv6Lit s

/-- Insert an address into the `seen` set (a Go `map[string]struct{}`,
modelled as an insertion-ordered duplicate-free list). -/
def seenInsert (seen : List Str) (a : Str) : List Str :=
  if seen.contains a then seen else seen ++ [a]

/-- Add a batch of addresses to the `seen` set. -/
def seenUnion (seen : List Str) (as : List Str) : List Str :=
  as.foldl seenInsert seen

/-- The mutable loop state of `LookupAlias`: the DNS cache, the mutable
`expiry` variable (a literal-IP member resets it to the zero time for all
later iterations), the `err` variable, and the `seen` set. -/
structure AliasLoopState where
  cache : Cache (List Str)
  expiry : Nat
  lastErr : Option Str
  seen : List Str

/-- One iteration of the member loop of `LookupAlias`: a literal IP member
is its own singleton result (and zeroes the expiry variable); otherwise a
live DNS-cache entry is used; otherwise the name is resolved — with
`LookupHost2` on the first configured DNS server in IPv6-only mode, with
`LookupHost` otherwise — a resolution error yielding the empty list but
being remembered in `err`, and the (possibly empty) result being stored in
the DNS cache under the current expiry.  (`DNSServers[0]` panics in Go when
the list is empty; the model reads an empty server name instead.) -/
def lookupAliasStep (d : DialerCfg) (now : Nat) (st : AliasLoopState) (name : Str) :
    AliasLoopState :=
  if isIPLiteral name then
    { st with expiry := 0, seen := seenUnion st.seen [name] }
  else
    match st.cache.getQuiet name now with
    | some addrs1 => { st with seen := seenUnion st.seen addrs1 }
    | none =>
      let res : Option (List Str) :=
        if d.IPv6Only then LookupHost2 d name (d.DNSServers.headD []) else LookupHost d name
      match res with
      | some addrs0 =>
        { st with cache := st.cache.set name addrs0 st.expiry,
                  seen := seenUnion st.seen addrs0 }
      | none =>
        { st with cache := st.cache.set name [] st.expiry,
                  lastErr := some (chars "resolver error") }

/-- Model of `MultiDialer.LookupAlias`: expand the members, then — only when the
union is non-empty — filter the blacklist and fail loudly when nothing is
left.  Returns the address list, the error and the updated DNS cache,
mirroring Go's `(addrs, err)` pair where both may be `nil` at once. -/
def LookupAlias (d : DialerCfg) (now : Nat) (cache0 : Cache (List Str)) (aname : Str) :
    Option (List Str) × Option Str × Cache (List Str) :=
  match d.HostMap.find? (fun kv => kv.1 = aname) with
  | none => (none, some (chars "alias not exists"), cache0)
  | some kv =>
    let st0 : AliasLoopState :=
      { cache := cache0, expiry := now + d.DNSCacheExpiry, lastErr := none, seen := [] }
    let st := kv.2.foldl (lookupAliasStep d now) st0
    if st.seen.length = 0 then (none, st.lastErr, st.cache)
    else
      let addrs := st.seen.filter (fun a => !d.blacklist a)
      if addrs.length = 0 then (none, some (chars "no good ip addrs"), st.cache)
      else (some addrs, none, st.cache)

/-! ### Helper lemmas -/

theorem strBytes_length (s : Str) : (strBytes s).length = s.length := by
  simp [strBytes]

theorem u16be_drop2 (n : Nat) (l : List Nat) : (u16be n ++ l).drop 2 = l := rfl

theorem u16val_u16be (n : Nat) (h : n ≤ 65535) : u16val (u16be n) = n := by
  have hlt : n % 65536 = n := Nat.mod_eq_of_lt (by omega)
  simp [u16val, u16be, hlt]
  omega

theorem dropWhile_isSpTab_replicate (n : Nat) :
    (List.replicate n 'a').dropWhile isSpTab = List.replicate n 'a' := by
  cases n with
  | zero => rfl
  | succ m =>
    have h : isSpTab 'a' = false := by decide
    rw [List.replicate_succ, List.dropWhile_cons, h]
    simp

theorem sanitize_replicate_a (n : Nat) :
    sanitizeHeaderValue (List.replicate n 'a') = List.replicate n 'a' := by
  have hrepl : replNl 'a' = 'a' := by decide
  unfold sanitizeHeaderValue trimOWS
  rw [List.map_replicate, hrepl, dropWhile_isSpTab_replicate, List.reverse_replicate,
    dropWhile_isSpTab_replicate, List.reverse_replicate]

theorem writeSubset_single (k v : Str) (hk : k ∉ reqWriteExcludeHeader) :
    writeSubset [(k, [v])] = k ++ chars ": " ++ sanitizeHeaderValue v ++ crlf := by
  have hfil : List.filter (fun kv => !(reqWriteExcludeHeader.contains kv.1))
      [(k, [v])] = [(k, [v])] := by
    simp [List.filter_cons, hk]
  simp only [writeSubset]
  rw [hfil]
  simp [sortHeaders, insertHeaderSorted]

/-! ### C1: request-encoding frame -/

/-- Scenario 3 inner request: a GET for `http://example.org/x` with the
single header `Accept: text/html` and no body. -/
def scenario3Req : GaeRequest :=
  { method := chars "GET", urlString := chars "http://example.org/x",
    header := [(chars "Accept", [chars "text/html"])],
    contentLength := 0, body := [] }

/-- Scenario 3 relay settings: password `pw`, deadline 30 seconds. -/
def scenario3Srv : GaeServer :=
  { urlScheme := chars "http", password := chars "pw", deadline := 30000000000 }

/-- C1 (confirmed): for every inner request, `encodeRequest` produces the
outer body `u16be(|C|) || C || rawBody` where `C` is the deflate of the
head; the block after the 2-byte prefix inflates back to exactly the head;
the head is the request line, the denylist-filtered headers, the password
line and the deadline line iff the deadline is positive; and on the
scenario-3 inputs the head is exactly the quoted string. -/
theorem c1_encode_frame (defl infl : List Nat → List Nat)
    (hround : ∀ s, infl (defl s) = s) (req : GaeRequest) (f : GaeServer) :
    (encodeRequest defl req f).body
      = u16be (defl (strBytes (encodeHead req f))).length
        ++ defl (strBytes (encodeHead req f))
        ++ (if req.contentLength > 0 then req.body else [])
    ∧ infl (((encodeRequest defl req f).body.drop 2).take
        (defl (strBytes (encodeHead req f))).length)
      = strBytes (encodeHead req f)
    ∧ encodeHead req f
      = req.method ++ chars " " ++ req.urlString ++ chars " HTTP/1.1" ++ crlf
        ++ writeSubset req.header
        ++ chars "X-Urlfetch-Password: " ++ f.password ++ crlf
        ++ (if f.deadline > 0
            then chars "X-Urlfetch-Deadline: "
                  ++ natToStr (f.deadline.toNat / 1000000000) ++ crlf
            else [])
    ∧ encodeHead scenario3Req scenario3Srv
      = chars "GET http://example.org/x HTTP/1.1\r\nAccept: text/html\r\nX-Urlfetch-Password: pw\r\nX-Urlfetch-Deadline: 30\r\n" := by
  have hbody : (encodeRequest defl req f).body
      = u16be (defl (strBytes (encodeHead req f))).length
        ++ defl (strBytes (encodeHead req f))
        ++ (if req.contentLength > 0 then req.body else []) := by
    by_cases hc : req.contentLength > 0
    · simp [encodeRequest, hc]
    · simp [encodeRequest, hc]
  refine ⟨hbody, ?_, rfl, by decide⟩
  rw [hbody]
  rw [show u16be (defl (strBytes (encodeHead req f))).length
        ++ defl (strBytes (encodeHead req f))
        ++ (if req.contentLength > 0 then req.body else [])
      = u16be (defl (strBytes (encodeHead req f))).length
        ++ (defl (strBytes (encodeHead req f))
            ++ (if req.contentLength > 0 then req.body else [])) from by
    simp [List.append_assoc]]
  rw [u16be_drop2, List.take_left, hround]

/-- C1 witness: the theorem applied at `defl = infl = id` and the
scenario-3 inputs. -/
theorem c1_encode_frame_witness :
    (encodeRequest id scenario3Req scenario3Srv).body
      = u16be (strBytes (encodeHead scenario3Req scenario3Srv)).length
        ++ strBytes (encodeHead scenario3Req scenario3Srv) ++ []
    ∧ id (((encodeRequest id scenario3Req scenario3Srv).body.drop 2).take
          (strBytes (encodeHead scenario3Req scenario3Srv)).length)
      = strBytes (encodeHead scenario3Req scenario3Srv) := by
  have h := c1_encode_frame id id (fun s => rfl) scenario3Req scenario3Srv
  constructor
  · have h1 := h.1
    simpa using h1
  · have h2 := h.2.1
    simpa using h2

/-! ### C4: no size check on the compressed block -/

/-- A 70000-character header value, making the head exceed 65535 bytes. -/
def c4BigValue : Str := List.replicate 70000 'a'

/-- A request whose (incompressible under `defl = id`) head block is 70053
bytes long. -/
def c4Req : GaeRequest :=
  { method := chars "GET", urlString := chars "http://e/",
    header := [(chars "A", [c4BigValue])], contentLength := 0, body := [] }

/-- Relay settings for the C4 counterexample (no deadline). -/
def c4Srv : GaeServer := { urlScheme := chars "http", password := chars "p", deadline := 0 }

theorem c4_sanitize : sanitizeHeaderValue c4BigValue = c4BigValue := sanitize_replicate_a 70000

/-- The 2-byte prefix of any encoded request is `u16be` of the compressed
block length (shared by the C4 theorems). -/
theorem encodeRequest_take2 (defl : List Nat → List Nat) (req : GaeRequest) (f : GaeServer) :
    (encodeRequest defl req f).body.take 2
      = u16be (defl (strBytes (encodeHead req f))).length := by
  by_cases hc : req.contentLength > 0 <;>
    simp [encodeRequest, hc, u16be, List.take_succ_cons]

theorem c4_head_len : (encodeHead c4Req c4Srv).length = 70053 := by
  have hk : chars "A" ∉ reqWriteExcludeHeader := by decide
  simp only [encodeHead, c4Req, c4Srv]
  rw [if_neg (by decide : ¬ ((0 : Int) > 0))]
  rw [writeSubset_single _ _ hk, c4_sanitize]
  simp only [List.append_nil, List.length_append, c4BigValue, List.length_replicate]
  decide

/-- C4 counterexample: on `c4Req` the compressed block (under the identity
compressor) is 70053 bytes — above 65535 — yet `encodeRequest` does not
fail: it produces an outer request whose 2-byte prefix holds
`70053 mod 2^16 = 4517`, not the block length.  No `RelayHeaderTooLarge`
error path exists in the source. -/
theorem c4_counterexample :
    65535 < (strBytes (encodeHead c4Req c4Srv)).length
    ∧ (encodeRequest id c4Req c4Srv).body.take 2 = [17, 165]
    ∧ u16val ((encodeRequest id c4Req c4Srv).body.take 2)
      ≠ (strBytes (encodeHead c4Req c4Srv)).length := by
  have hlen : (strBytes (encodeHead c4Req c4Srv)).length = 70053 := by
    rw [strBytes_length, c4_head_len]
  have htake0 := encodeRequest_take2 id c4Req c4Srv
  simp only [id_eq] at htake0
  rw [hlen] at htake0
  have htake : (encodeRequest id c4Req c4Srv).body.take 2 = [17, 165] := by
    rw [htake0]; decide
  refine ⟨by omega, htake, ?_⟩
  rw [htake, hlen]
  decide

/-- C4 amended: `encodeRequest` performs no size check; the 2-byte prefix
always holds `|C| mod 2^16`, which equals `|C|` exactly whenever
`|C| ≤ 65535`. -/
theorem c4_amended (defl : List Nat → List Nat) (req : GaeRequest) (f : GaeServer) :
    (encodeRequest defl req f).body.take 2
      = u16be (defl (strBytes (encodeHead req f))).length
    ∧ ((defl (strBytes (encodeHead req f))).length ≤ 65535 →
        u16val ((encodeRequest defl req f).body.take 2)
          = (defl (strBytes (encodeHead req f))).length) := by
  have htake := encodeRequest_take2 defl req f
  exact ⟨htake, fun hle => by rw [htake, u16val_u16be _ hle]⟩

/-- C4 amended witness: at the scenario-3 inputs the block is small and the
prefix recovers its exact length. -/
theorem c4_amended_witness :
    (strBytes (encodeHead scenario3Req scenario3Srv)).length ≤ 65535
    ∧ u16val ((encodeRequest id scenario3Req scenario3Srv).body.take 2)
      = (strBytes (encodeHead scenario3Req scenario3Srv)).length := by
  refine ⟨by decide, ?_⟩
  have h := (c4_amended id scenario3Req scenario3Srv).2 (by decide)
  simpa using h

/-! ### C10: the inner body is forwarded iff ContentLength > 0 -/

/-- C10 (confirmed): for `ContentLength ≤ 0` — including the unknown-length
value `-1` — the outer body is exactly prefix and compressed block and the
inner body is dropped; for `ContentLength > 0` the raw inner body follows. -/
theorem c10_body_iff (defl : List Nat → List Nat) (req : GaeRequest) (f : GaeServer) :
    (req.contentLength ≤ 0 →
      (encodeRequest defl req f).body
        = u16be (defl (strBytes (encodeHead req f))).length
          ++ defl (strBytes (encodeHead req f)))
    ∧ (req.contentLength > 0 →
      (encodeRequest defl req f).body
        = u16be (defl (strBytes (encodeHead req f))).length
          ++ defl (strBytes (encodeHead req f)) ++ req.body) := by
  constructor
  · intro h
    simp [encodeRequest, show ¬ req.contentLength > 0 by omega]
  · intro h
    simp [encodeRequest, h]

/-- A streamed inner request: `ContentLength = -1` with a pending body. -/
def c10Req : GaeRequest :=
  { method := chars "POST", urlString := chars "http://example.org/u",
    header := [], contentLength := -1, body := strBytes (chars "streamed") }

/-- Relay settings for the C10 witness. -/
def c10Srv : GaeServer := { urlScheme := chars "https", password := chars "s", deadline := 0 }

/-- C10 witness: with `ContentLength = -1` the body is dropped. -/
theorem c10_body_iff_witness :
    (-1 : Int) ≤ 0
    ∧ (encodeRequest id c10Req c10Srv).body
      = u16be (strBytes (encodeHead c10Req c10Srv)).length
        ++ strBytes (encodeHead c10Req c10Srv) := by
  refine ⟨by decide, ?_⟩
  have h := (c10_body_iff id c10Req c10Srv).1 (by decide)
  simpa using h

/-! ### C7: Set-Cookie rejoining -/

/-- C7 (confirmed): on exactly one Set-Cookie value the header is rewritten
by splitting on `", "` — the first part always starts a cookie, each later
part is rejoined with `", "` to the previous cookie iff the substring
before its first `;` contains no `=` — and the single value is replaced
only when more than one cookie results; zero or several Set-Cookie values
leave the headers unchanged. -/
theorem c7_set_cookie :
    (∀ cur c cs, startsNewCookie c = false →
        mergeCookieParts cur (c :: cs) = mergeCookieParts (cur ++ chars ", " ++ c) cs)
    ∧ (∀ cur c cs, startsNewCookie c = true →
        mergeCookieParts cur (c :: cs) = cur :: mergeCookieParts c cs)
    ∧ (∀ c : Str, startsNewCookie c = (c.takeWhile (fun x => x ≠ ';')).contains '=')
    ∧ (∀ h c, headerGet h (chars "Set-Cookie") = some [c] →
        fixSetCookie h =
          if (splitCookieValue c).length > 1
          then headerSetValues h (chars "Set-Cookie") (splitCookieValue c)
          else h)
    ∧ (∀ h vs, headerGet h (chars "Set-Cookie") = some vs → vs.length ≠ 1 →
        fixSetCookie h = h)
    ∧ (∀ h, headerGet h (chars "Set-Cookie") = none → fixSetCookie h = h) := by
  refine ⟨?_, ?_, fun c => rfl, ?_, ?_, ?_⟩
  · intro cur c cs hc
    simp [mergeCookieParts, hc]
  · intro cur c cs hc
    simp [mergeCookieParts, hc]
  · intro h c hc
    simp [fixSetCookie, hc]
  · intro h vs hc hlen
    cases vs with
    | nil => simp [fixSetCookie, hc]
    | cons a t =>
      cases t with
      | nil => exact absurd rfl hlen
      | cons b t2 => simp [fixSetCookie, hc]
  · intro h hc
    simp [fixSetCookie, hc]

/-- Scenario 4 headers: one Set-Cookie value containing an Expires date
comma and a second cookie. -/
def c7Hdr : Header :=
  [(chars "Set-Cookie", [chars "a=1; Expires=Wed, 01 Jan 2025 00:00:00 GMT, b=2; Path=/"])]

/-- C7 witness: scenario 4 splits into exactly the two expected cookies. -/
theorem c7_set_cookie_witness :
    headerGet c7Hdr (chars "Set-Cookie")
      = some [chars "a=1; Expires=Wed, 01 Jan 2025 00:00:00 GMT, b=2; Path=/"]
    ∧ fixSetCookie c7Hdr
      = [(chars "Set-Cookie",
          [chars "a=1; Expires=Wed, 01 Jan 2025 00:00:00 GMT", chars "b=2; Path=/"])] := by
  refine ⟨by decide, ?_⟩
  have h := c7_set_cookie.2.2.2.1 c7Hdr
      (chars "a=1; Expires=Wed, 01 Jan 2025 00:00:00 GMT, b=2; Path=/") (by decide)
  rw [h]
  decide

/-! ### C8: error-body composition -/

/-- C8 (confirmed): for a successfully decoded outer-200 response the final
body is composed per the source switch — decoded status ≥ 400 with a
decoded body prepends it to the outer remainder iff non-empty, a nil
decoded body or a status < 400 takes the outer remainder alone. -/
theorem c8_error_body (infl : List Nat → List Nat) :
    (∀ st b rem, 400 ≤ st → b ≠ [] →
        composeBody st (some b) (some rem) = some (b ++ rem))
    ∧ (∀ st rem, 400 ≤ st → composeBody st (some []) (some rem) = some rem)
    ∧ (∀ st rem, 400 ≤ st → composeBody st none (some rem) = some rem)
    ∧ (∀ st b rem, st < 400 → composeBody st b (some rem) = some rem)
    ∧ (∀ resp bs hdrBuf rem code hdrs innerBody,
        resp.status = 200 → resp.body = some bs →
        decodeFrame bs = some (hdrBuf, rem) →
        readResponseHead (bytesToStr (infl hdrBuf)) = some (code, hdrs, innerBody) →
        decodeResponse infl resp
          = some { status := code, header := fixSetCookie hdrs,
                   body := composeBody code (some (strBytes innerBody)) (some rem) }) := by
  refine ⟨?_, ?_, ?_, ?_, ?_⟩
  · intro st b rem hst hb
    have hlen : b.length > 0 := List.length_pos.mpr hb
    simp [composeBody, hst, hlen]
  · intro st rem hst
    simp [composeBody, hst]
  · intro st rem hst
    simp [composeBody, hst]
  · intro st b rem hst
    simp [composeBody, Nat.not_le.mpr hst]
  · intro resp bs hdrBuf rem code hdrs innerBody h200 hbody hframe hread
    simp [decodeResponse, h200, hbody, hframe, hread]

/-- Scenario 5 inner header block: status 500, no headers, body `oops`. -/
def c8InnerBlock : List Nat := strBytes (chars "HTTP/1.1 500 Oops\r\n\r\noops")

/-- Scenario 5 outer response: the framed block followed by `tail`. -/
def c8Outer : HttpResponse :=
  { status := 200, header := [],
    body := some (u16be c8InnerBlock.length ++ c8InnerBlock ++ strBytes (chars "tail")) }

/-- C8 witness: scenario 5 — inner status 500, inner body `oops`, outer
remainder `tail`, final body `oopstail`. -/
theorem c8_error_body_witness :
    decodeResponse id c8Outer
      = some { status := 500, header := [],
               body := some (strBytes (chars "oopstail")) } := by
  have h := (c8_error_body id).2.2.2.2 c8Outer
      (u16be c8InnerBlock.length ++ c8InnerBlock ++ strBytes (chars "tail"))
      c8InnerBlock (strBytes (chars "tail")) 500 [] (chars "oops")
      (by rfl) (by rfl) (by rfl) (by rfl)
  rw [h]
  decide

/-! ### C2: the TCP racer writes its error into the TLS error cache -/

/-- The failing address of the C2 evaluation. -/
def c2Addr : Str := chars "1.2.3.4:80"

/-- C2 (code bug, flagged by the spec): evaluating the `dialMulti` failure
path shows the connect error lands in `TLSConnError` — with the expected
expiry `finish + connExpiry = 60` — while `TCPConnError` stays empty; the
duration record is deleted as specified. -/
theorem c2_tcp_error_miswrite :
    (dialMultiAttempt ⟨Cache.empty, Cache.empty, Cache.empty, Cache.empty⟩ 50 c2Addr
        (some (chars "connection refused")) 0 10).TCPConnError c2Addr = none
    ∧ (dialMultiAttempt ⟨Cache.empty, Cache.empty, Cache.empty, Cache.empty⟩ 50 c2Addr
        (some (chars "connection refused")) 0 10).TLSConnError c2Addr
      = some (chars "connection refused", 60)
    ∧ (dialMultiAttempt
        ⟨(Cache.empty).set c2Addr 5 100, Cache.empty, Cache.empty, Cache.empty⟩ 50 c2Addr
        (some (chars "connection refused")) 0 10).TCPConnDuration c2Addr = none := by
  refine ⟨by decide, by decide, by decide⟩

/-! ### C3: good and bad records are not mutually exclusive -/

/-- The address of the C3 counterexample. -/
def c3Addr : Str := chars "5.6.7.8:443"

/-- State after a TLS dial failure at time 10 (TTL 100). -/
def c3AfterFail : HealthCaches :=
  dialMultiTLSAttempt ⟨Cache.empty, Cache.empty, Cache.empty, Cache.empty⟩ 100 c3Addr
    (some (chars "timeout")) none 0 10

/-- State after a subsequent successful handshake (20 → 30). -/
def c3AfterSuccess : HealthCaches :=
  dialMultiTLSAttempt c3AfterFail 100 c3Addr none none 20 30

/-- C3 counterexample: after a failure followed by a success within the
TTL, the address holds a live duration record AND a live error record at
time 40 — the success write did not delete the error record. -/
theorem c3_counterexample :
    c3AfterSuccess.TLSConnDuration.getQuiet c3Addr 40 = some 10
    ∧ c3AfterSuccess.TLSConnError.getQuiet c3Addr 40 = some (chars "timeout") := by
  refine ⟨by decide, by decide⟩

/-- C3 amended: every attempt that writes an error deletes the duration
record of the same transport, but attempts that write a success duration
leave both error caches untouched — so the two records can coexist. -/
theorem c3_amended (d : HealthCaches) (exp : Nat) (addr : Str) (e : Str)
    (hs : Option Str) (s fin : Nat) :
    (dialMultiAttempt d exp addr (some e) s fin).TCPConnDuration addr = none
    ∧ (dialMultiTLSAttempt d exp addr (some e) hs s fin).TLSConnDuration addr = none
    ∧ (dialMultiTLSAttempt d exp addr none (some e) s fin).TLSConnDuration addr = none
    ∧ (dialMultiAttempt d exp addr none s fin).TCPConnError = d.TCPConnError
    ∧ (dialMultiAttempt d exp addr none s fin).TLSConnError = d.TLSConnError
    ∧ (dialMultiTLSAttempt d exp addr none none s fin).TCPConnError = d.TCPConnError
    ∧ (dialMultiTLSAttempt d exp addr none none s fin).TLSConnError = d.TLSConnError := by
  refine ⟨?_, ?_, ?_, rfl, rfl, rfl, rfl⟩ <;>
    simp [dialMultiAttempt, dialMultiTLSAttempt, Cache.del]

/-! ### C5: the address picker -/

theorem cons_set_perm {α : Type} :
    ∀ (xs : List α) (x : α) (j : Nat) (b : α), xs[j]? = some b →
      List.Perm (x :: xs) (b :: xs.set j x) := by
  intro xs
  induction xs with
  | nil => intro x j b h; simp at h
  | cons y t ih =>
    intro x j b h
    cases j with
    | zero =>
      simp only [List.getElem?_cons_zero] at h
      injection h with h
      subst h
      exact List.Perm.swap y x t
    | succ j =>
      simp only [List.getElem?_cons_succ] at h
      exact ((List.Perm.swap y x t).trans ((ih x j b h).cons y)).trans
        (List.Perm.swap b y (t.set j x))

theorem set_set_perm {α : Type} :
    ∀ (l : List α) (i j : Nat) (a b : α), l[i]? = some a → l[j]? = some b →
      List.Perm ((l.set i b).set j a) l := by
  intro l
  induction l with
  | nil => intro i j a b hi hj; simp at hi
  | cons x t ih =>
    intro i j a b hi hj
    cases i with
    | zero =>
      simp only [List.getElem?_cons_zero] at hi
      injection hi with hi
      subst hi
      cases j with
      | zero =>
        simp only [List.getElem?_cons_zero] at hj
        injection hj with hj
        subst hj
        exact List.Perm.refl _
      | succ k =>
        simp only [List.getElem?_cons_succ] at hj
        exact (cons_set_perm t x k b hj).symm
    | succ m =>
      simp only [List.getElem?_cons_succ] at hi
      cases j with
      | zero =>
        simp only [List.getElem?_cons_zero] at hj
        injection hj with hj
        subst hj
        exact (cons_set_perm t x m a hi).symm
      | succ k =>
        simp only [List.getElem?_cons_succ] at hj
        exact (ih m k a b hi hj).cons x

theorem swapAt_perm {α : Type} (l : List α) (i j : Nat) : List.Perm (swapAt l i j) l := by
  rw [swapAt]
  cases hi : l[i]? with
  | none => exact List.Perm.refl l
  | some a =>
    cases hj : l[j]? with
    | none => exact List.Perm.refl l
    | some b => exact set_set_perm l i j a b hi hj

theorem shuffleFrom_perm {α : Type} (rnd : Nat → Nat) :
    ∀ (i : Nat) (l : List α), List.Perm (shuffleFrom rnd l i) l := by
  intro i
  induction i with
  | zero => intro l; exact swapAt_perm l 0 (rnd 0 % 1)
  | succ i ih =>
    intro l
    exact (ih _).trans (swapAt_perm l (i + 1) (rnd (i + 1) % (i + 2)))

theorem shuffle_perm {α : Type} (rnd : Nat → Nat) (l : List α) :
    List.Perm (shuffle rnd l) l := by
  cases l with
  | nil => exact List.Perm.refl []
  | cons x t => exact shuffleFrom_perm rnd _ _

instance : IsTotal Racer (fun a b => a.duration ≤ b.duration) :=
  ⟨fun a b => Nat.le_total a.duration b.duration⟩

instance : IsTrans Racer (fun a b => a.duration ≤ b.duration) :=
  ⟨fun _ _ _ hab hbc => Nat.le_trans hab hbc⟩

/-- The claim-level characterisation of one `pickupAddrs` run on an
oversized candidate list: the result is the good addresses sorted ascending
by cached duration and capped at `⌊n/2⌋`, followed by a permutation of the
unknown addresses truncated so the total stays within `n`; no address the
partition classifies as bad (live error record and no live duration record)
appears, and when no address holds both records simultaneously no address
with a live error record appears at all. -/
def pickerSpec (addrs : List Str) (n : Nat) (dur : Cache Nat) (errc : Cache Str)
    (now : Nat) (result : List Str) : Prop :=
  ∃ gs us,
    List.Perm gs (addrs.filterMap (fun a => (dur.getQuiet a now).map (fun d => Racer.mk a d)))
    ∧ List.Pairwise (fun a b : Racer => a.duration ≤ b.duration) gs
    ∧ List.Perm us (addrs.filter
        (fun a => (dur.getQuiet a now).isNone && (errc.getQuiet a now).isNone))
    ∧ result = (gs.take (n / 2)).map Racer.addr
        ++ us.take (n - ((gs.take (n / 2)).map Racer.addr).length)
    ∧ ((gs.take (n / 2)).map Racer.addr).length ≤ n / 2
    ∧ result.length ≤ n
    ∧ (∀ a ∈ result, ¬(dur.getQuiet a now = none ∧ (errc.getQuiet a now).isSome = true))
    ∧ ((∀ a : Str, ¬((dur.getQuiet a now).isSome = true ∧ (errc.getQuiet a now).isSome = true)) →
        ∀ a ∈ result, errc.getQuiet a now = none)

/-- C5 amended: on an oversized candidate list `pickupAddrs` satisfies
`pickerSpec` — in particular no address classified bad enters the result,
and under the record-exclusivity invariant no address with a live error
record does; without that invariant an address holding both records is
classified good and may appear (see the counterexample). -/
theorem c5_amended (addrs : List Str) (n : Nat) (dur : Cache Nat) (errc : Cache Str)
    (now : Nat) (rnd : Nat → Nat) (hlen : n < addrs.length) :
    pickerSpec addrs n dur errc now (pickupAddrs addrs n dur errc now rnd) := by
  have hnle : ¬ (addrs.length ≤ n) := Nat.not_le.mpr hlen
  set goodAddrs := addrs.filterMap
    (fun a => (dur.getQuiet a now).map (fun d => Racer.mk a d)) with hgood
  set unknownAddrs := addrs.filter
    (fun a => (dur.getQuiet a now).isNone && (errc.getQuiet a now).isNone) with hunk
  set gs := goodAddrs.insertionSort (fun a b => a.duration ≤ b.duration) with hgs
  set us := shuffle rnd unknownAddrs with hus
  have hres : pickupAddrs addrs n dur errc now rnd
      = (gs.take (n / 2)).map Racer.addr
        ++ us.take (n - ((gs.take (n / 2)).map Racer.addr).length) := by
    rw [pickupAddrs, if_neg hnle]
  have hglen : ((gs.take (n / 2)).map Racer.addr).length ≤ n / 2 := by
    rw [List.length_map, List.length_take]
    exact Nat.min_le_left _ _
  have hulen : (us.take (n - ((gs.take (n / 2)).map Racer.addr).length)).length
      ≤ n - ((gs.take (n / 2)).map Racer.addr).length := by
    rw [List.length_take]
    exact Nat.min_le_left _ _
  have hgood_mem : ∀ a ∈ (gs.take (n / 2)).map Racer.addr,
      (dur.getQuiet a now).isSome = true := by
    intro a ha
    obtain ⟨r, hr, hra⟩ := List.mem_map.mp ha
    have hrgs : r ∈ gs := List.mem_of_mem_take hr
    have hrgood : r ∈ goodAddrs :=
      (List.perm_insertionSort (fun a b => a.duration ≤ b.duration) goodAddrs).mem_iff.mp hrgs
    obtain ⟨a0, _, hf⟩ := List.mem_filterMap.mp hrgood
    obtain ⟨d0, hd0, hmk⟩ := Option.map_eq_some'.mp hf
    have : a0 = a := by rw [← hra, ← hmk]
    rw [← this, hd0]
    rfl
  have hunk_mem : ∀ a ∈ us.take (n - ((gs.take (n / 2)).map Racer.addr).length),
      dur.getQuiet a now = none ∧ errc.getQuiet a now = none := by
    intro a ha
    have haus : a ∈ us := List.mem_of_mem_take ha
    have haunk : a ∈ unknownAddrs := (shuffle_perm rnd unknownAddrs).mem_iff.mp haus
    have hp := (List.mem_filter.mp haunk).2
    have hp' := Bool.and_eq_true_iff.mp hp
    exact ⟨Option.isNone_iff_eq_none.mp hp'.1, Option.isNone_iff_eq_none.mp hp'.2⟩
  refine ⟨gs, us, ?_, ?_, ?_, hres, hglen, ?_, ?_, ?_⟩
  · exact List.perm_insertionSort _ _
  · exact List.sorted_insertionSort _ _
  · exact shuffle_perm rnd _
  · rw [hres, List.length_append]
    omega
  · intro a ha
    rw [hres] at ha
    rcases List.mem_append.mp ha with hg | hu
    · intro hcon
      have hd := hgood_mem a hg
      rw [hcon.1] at hd
      simp at hd
    · intro hcon
      have he := (hunk_mem a hu).2
      rw [he] at hcon
      simp at hcon
  · intro hdisj a ha
    rw [hres] at ha
    rcases List.mem_append.mp ha with hg | hu
    · have hd := hgood_mem a hg
      have := hdisj a
      cases herr : (errc.getQuiet a now).isSome with
      | false => exact Option.not_isSome_iff_eq_none.mp (by simp [herr])
      | true => exact absurd ⟨hd, herr⟩ this
    · exact (hunk_mem a hu).2

/-- Duration cache of the C5 counterexample: address `a` holds a live
duration record. -/
def c5Dur : Cache Nat := (Cache.empty).set (chars "a") 5 100

/-- Error cache of the C5 counterexample: address `a` simultaneously holds
a live error record (the state C3 shows to be reachable). -/
def c5Err : Cache Str := (Cache.empty).set (chars "a") (chars "refused") 100

/-- C5 counterexample: with both records live for `a`, the partition
classifies `a` as good and `pickupAddrs` returns it — an address with a
live error record appears in the result, contradicting the claim as
stated. -/
theorem c5_counterexample :
    pickupAddrs [chars "a", chars "b", chars "c"] 2 c5Dur c5Err 0 (fun _ => 0)
      = [chars "a", chars "c"]
    ∧ (c5Err.getQuiet (chars "a") 0).isSome = true := by
  refine ⟨by decide, by decide⟩

/-- C5 amended witness: the characterisation applied to a concrete
oversized list. -/
theorem c5_amended_witness :
    pickerSpec [chars "a", chars "b", chars "c"] 2 c5Dur c5Err 0
      (pickupAddrs [chars "a", chars "b", chars "c"] 2 c5Dur c5Err 0 (fun _ => 0)) :=
  c5_amended [chars "a", chars "b", chars "c"] 2 c5Dur c5Err 0 (fun _ => 0) (by decide)

/-! ### C6 / C9: alias lookup -/

/-- The member list of an alias (empty when the alias is unknown). -/
def membersOf (d : DialerCfg) (aname : Str) : List Str :=
  match d.HostMap.find? (fun kv => kv.1 = aname) with
  | some kv => kv.2
  | none => []

theorem getQuiet_some {V : Type} (c : Cache V) (k : Str) (now : Nat) (v : V)
    (h : c.getQuiet k now = some v) : ∃ e, c k = some (v, e) := by
  unfold Cache.getQuiet at h
  cases hc : c k with
  | none => rw [hc] at h; simp at h
  | some p =>
    obtain ⟨v', e⟩ := p
    rw [hc] at h
    have h' : (if e = 0 ∨ now < e then some v' else none) = some v := h
    by_cases he : e = 0 ∨ now < e
    · rw [if_pos he] at h'
      injection h' with h'
      subst h'
      exact ⟨e, rfl⟩
    · rw [if_neg he] at h'
      simp at h'

theorem mem_seenInsert {s : List Str} {x a : Str} (h : a ∈ seenInsert s x) :
    a ∈ s ∨ a = x := by
  unfold seenInsert at h
  by_cases hc : s.contains x
  · rw [if_pos hc] at h
    exact Or.inl h
  · rw [if_neg hc] at h
    rcases List.mem_append.mp h with h1 | h1
    · exact Or.inl h1
    · exact Or.inr (List.mem_singleton.mp h1)

theorem mem_seenUnion : ∀ (l : List Str) (s : List Str) (a : Str),
    a ∈ seenUnion s l → a ∈ s ∨ a ∈ l := by
  intro l
  induction l with
  | nil => intro s a h; exact Or.inl h
  | cons x t ih =>
    intro s a h
    rcases ih (seenInsert s x) a h with h1 | h1
    · rcases mem_seenInsert h1 with h2 | h2
      · exact Or.inl h2
      · exact Or.inr (by rw [h2]; exact List.mem_cons_self x t)
    · exact Or.inr (List.mem_cons_of_mem x h1)

theorem lookupHost_no_colon (d : DialerCfg) (hv6 : d.IPv6Only = false) (name : Str)
    (addrs : List Str) (h : LookupHost d name = some addrs) :
    ∀ a ∈ addrs, a.contains ':' = false := by
  intro a ha
  rw [LookupHost] at h
  cases hs : d.sysDNS name with
  | none => rw [hs] at h; simp at h
  | some hl =>
    rw [hs] at h
    injection h with h
    rw [← h] at ha
    have hp := (List.mem_filter.mp ha).2
    cases hcol : a.contains ':' with
    | false => rfl
    | true =>
      cases hb : d.blacklist a with
      | true => simp [hb] at hp
      | false =>
        simp [hb, hcol, hv6] at hp
        simp at hcol
        exact absurd hcol hp

theorem lookupAliasStep_no_colon (d : DialerCfg) (now : Nat) (hv6 : d.IPv6Only = false)
    (st : AliasLoopState) (nm : Str) (hnm : isIPLiteral nm = false)
    (hseen : ∀ a ∈ st.seen, a.contains ':' = false)
    (hcache : ∀ nm' vs e, st.cache nm' = some (vs, e) → ∀ a ∈ vs, a.contains ':' = false) :
    (∀ a ∈ (lookupAliasStep d now st nm).seen, a.contains ':' = false)
    ∧ (∀ nm' vs e, (lookupAliasStep d now st nm).cache nm' = some (vs, e) →
        ∀ a ∈ vs, a.contains ':' = false) := by
  rw [lookupAliasStep, if_neg (by simp [hnm])]
  cases hget : st.cache.getQuiet nm now with
  | some addrs1 =>
    obtain ⟨e, hstore⟩ := getQuiet_some _ _ _ _ hget
    have haddrs1 : ∀ a ∈ addrs1, a.contains ':' = false := hcache nm addrs1 e hstore
    refine ⟨?_, hcache⟩
    intro a ha
    rcases mem_seenUnion _ _ _ ha with h1 | h1
    · exact hseen a h1
    · exact haddrs1 a h1
  | none =>
    simp only [hv6, Bool.false_eq_true, if_false]
    cases hres : LookupHost d nm with
    | some addrs0 =>
      have haddrs0 := lookupHost_no_colon d hv6 nm addrs0 hres
      constructor
      · intro a ha
        rcases mem_seenUnion _ _ _ ha with h1 | h1
        · exact hseen a h1
        · exact haddrs0 a h1
      · intro nm' vs e hc'
        by_cases heq : nm' = nm
        · simp only [Cache.set] at hc'
          rw [if_pos heq] at hc'
          injection hc' with hpair
          have hvs : vs = addrs0 := (congrArg Prod.fst hpair).symm
          rw [hvs]
          exact haddrs0
        · simp only [Cache.set] at hc'
          rw [if_neg heq] at hc'
          exact hcache nm' vs e hc'
    | none =>
      constructor
      · exact hseen
      · intro nm' vs e hc'
        by_cases heq : nm' = nm
        · simp only [Cache.set] at hc'
          rw [if_pos heq] at hc'
          injection hc' with hpair
          have hvs : vs = [] := (congrArg Prod.fst hpair).symm
          rw [hvs]
          intro a ha
          simp at ha
        · simp only [Cache.set] at hc'
          rw [if_neg heq] at hc'
          exact hcache nm' vs e hc'

theorem alias_fold_no_colon (d : DialerCfg) (now : Nat) (hv6 : d.IPv6Only = false) :
    ∀ (names : List Str) (st : AliasLoopState),
      (∀ nm ∈ names, isIPLiteral nm = false) →
      (∀ a ∈ st.seen, a.contains ':' = false) →
      (∀ nm vs e, st.cache nm = some (vs, e) → ∀ a ∈ vs, a.contains ':' = false) →
      ∀ a ∈ (names.foldl (lookupAliasStep d now) st).seen, a.contains ':' = false := by
  intro names
  induction names with
  | nil => intro st _ hseen _ a ha; exact hseen a ha
  | cons nm t ih =>
    intro st hlit hseen hcache a ha
    have hnm : isIPLiteral nm = false := hlit nm (List.mem_cons_self nm t)
    have hstep := lookupAliasStep_no_colon d now hv6 st nm hnm hseen hcache
    exact ih (lookupAliasStep d now st nm)
      (fun nm' hnm' => hlit nm' (List.mem_cons_of_mem nm hnm')) hstep.1 hstep.2 a ha

/-- C6 amended: every address returned by `LookupAlias` is absent from the
blacklist; and — when IPv6-only mode is off, no member of the alias is a
literal IP, and every pre-existing DNS-cache entry is colon-free — every
returned address contains no colon.  Literal-IP members and pre-existing
cache entries bypass the family filter (see the counterexample). -/
theorem c6_amended (d : DialerCfg) (now : Nat) (cache0 : Cache (List Str)) (aname : Str)
    (addrs : List Str) (h : (LookupAlias d now cache0 aname).1 = some addrs) :
    (∀ a ∈ addrs, d.blacklist a = false)
    ∧ (d.IPv6Only = false →
        (∀ nm ∈ membersOf d aname, isIPLiteral nm = false) →
        (∀ nm vs e, cache0 nm = some (vs, e) → ∀ a ∈ vs, a.contains ':' = false) →
        ∀ a ∈ addrs, a.contains ':' = false) := by
  rw [LookupAlias] at h
  cases hfind : d.HostMap.find? (fun kv => kv.1 = aname) with
  | none => rw [hfind] at h; simp at h
  | some kv =>
    rw [hfind] at h
    simp only [] at h
    set st := kv.2.foldl (lookupAliasStep d now)
      ⟨cache0, now + d.DNSCacheExpiry, none, []⟩ with hst
    by_cases hz : st.seen.length = 0
    · rw [if_pos hz] at h
      simp at h
    · rw [if_neg hz] at h
      by_cases hz2 : (st.seen.filter (fun a => !d.blacklist a)).length = 0
      · rw [if_pos hz2] at h
        simp at h
      · rw [if_neg hz2] at h
        simp only [Option.some.injEq] at h
        constructor
        · intro a ha
          rw [← h] at ha
          have hp := (List.mem_filter.mp ha).2
          simpa using hp
        · intro hv6 hlit hc0 a ha
          rw [← h] at ha
          have hmem : a ∈ st.seen := (List.mem_filter.mp ha).1
          have hlit' : ∀ nm ∈ kv.2, isIPLiteral nm = false := by
            intro nm hnm
            apply hlit
            rw [membersOf, hfind]
            exact hnm
          exact alias_fold_no_colon d now hv6 kv.2
            ⟨cache0, now + d.DNSCacheExpiry, none, []⟩ hlit'
            (fun a' ha' => by simp at ha') hc0 a hmem

/-- C6 counterexample configuration: IPv4 mode, one alias whose single
member is an IPv6 literal, nothing blacklisted. -/
def c6Cfg : DialerCfg :=
  { IPv6Only := false,
    HostMap := [(chars "a", [chars "2001:db8::1"])],
    blacklist := fun _ => false,
    DNSServers := [],
    sysDNS := fun _ => none,
    udpDNS := fun _ _ => none,
    DNSCacheExpiry := 60 }

/-- C6 counterexample: with IPv6-only off, a literal IPv6 member is
returned verbatim — the result contains a colon-bearing address, so the
family guarantee does not extend to literal-IP members. -/
theorem c6_counterexample :
    c6Cfg.IPv6Only = false
    ∧ (LookupAlias c6Cfg 0 Cache.empty (chars "a")).1 = some [chars "2001:db8::1"]
    ∧ (chars "2001:db8::1").contains ':' = true := by
  refine ⟨rfl, by decide, by decide⟩

/-- C6 witness configuration: one hostname member whose system resolution
returns a good IPv4, an IPv6 address and a blacklisted IPv4. -/
def c6wCfg : DialerCfg :=
  { IPv6Only := false,
    HostMap := [(chars "a", [chars "h.example"])],
    blacklist := fun a => a = chars "6.6.6.6",
    DNSServers := [],
    sysDNS := fun name =>
      if name = chars "h.example"
      then some [chars "5.6.7.8", chars "2001:db8::2", chars "6.6.6.6"]
      else none,
    udpDNS := fun _ _ => none,
    DNSCacheExpiry := 60 }

/-- C6 amended witness: on a fresh hostname-only alias the result is
blacklist-free and colon-free. -/
theorem c6_amended_witness :
    (LookupAlias c6wCfg 0 Cache.empty (chars "a")).1 = some [chars "5.6.7.8"]
    ∧ (∀ a ∈ [chars "5.6.7.8"], c6wCfg.blacklist a = false)
    ∧ (∀ a ∈ [chars "5.6.7.8"], a.contains ':' = false) := by
  have h0 : (LookupAlias c6wCfg 0 Cache.empty (chars "a")).1 = some [chars "5.6.7.8"] := by
    decide
  have h := c6_amended c6wCfg 0 Cache.empty (chars "a") [chars "5.6.7.8"] h0
  exact ⟨h0, h.1, h.2 rfl (by decide) (fun nm vs e hc => by simp [Cache.empty] at hc)⟩

/-- C9 failing configuration: the only member resolves successfully but
every returned address is blacklisted, so the post-filter union is empty
while no resolver transport error occurred. -/
def c9Cfg : DialerCfg :=
  { IPv6Only := false,
    HostMap := [(chars "alias1", [chars "h.example"])],
    blacklist := fun a => a = chars "9.9.9.9",
    DNSServers := [],
    sysDNS := fun name => if name = chars "h.example" then some [chars "9.9.9.9"] else none,
    udpDNS := fun _ _ => none,
    DNSCacheExpiry := 60 }

/-- C9 (code bug) evaluated: the member lookup succeeds with an empty
filtered list (`LookupHost` returns `some []`, no transport error), the
`seen` union is empty, and `LookupAlias` returns a nil address list
together with a nil error — not the claimed non-nil NoAddresses error. -/
theorem c9_no_error_on_empty :
    (LookupAlias c9Cfg 0 Cache.empty (chars "alias1")).1 = none
    ∧ (LookupAlias c9Cfg 0 Cache.empty (chars "alias1")).2.1 = none
    ∧ LookupHost c9Cfg (chars "h.example") = some [] := by
  refine ⟨by rfl, by rfl, by decide⟩

end Goproxy
